import Mathlib

/-!
# Verification of `renpy/sl2/slast.py` (screen-language AST core)

A shallow embedding of the screen-language node tree from
`src/renpy/sl2/slast.py`, together with proofs about its `prepare`,
`execute` and `keywords` phases.

Modelling conventions:

* Python dicts whose keys are strings (scopes, keyword mappings) are
  association lists `List (String × Val)` with insertion-order-preserving
  update (`setVar`), matching Python dict semantics.
* Fallible evaluation returns `Option`; `none` models a propagating Python
  exception (NameError, TypeError, AttributeError, ...).
* The external collaborators that are not part of `src/`
  (`renpy.python.py_compile` / `py_eval_bytecode` / `py_exec_bytecode`,
  `renpy.sl2.pyutil.is_constant`, `renpy.style.get_style`, the screen's
  widget registry, the imagemap stack) are modelled from the spec, as
  noted on each definition.
* The interpreter threads an explicit `World` for the externally visible
  state (`renpy.ui.screen.widgets`, `screen.widget_properties`, the
  imagemap stack, the evaluator's global store) and additionally records a
  log of construction-function invocations (`World.calls`), which stands
  for "`self.displayable(*positional, **keywords)` was called with these
  arguments".
-/

/-- Python values as far as the screen-language core observes them.
`Val.none` is Python `None`; `Val.style` is the opaque handle returned by
the style resolver; `Val.transform` is an opaque transform function;
`Val.dict` models a dict (e.g. the scope passed as the `scope` keyword). -/
inductive Val where
  | none : Val
  | int : Int → Val
  | str : String → Val
  | bool : Bool → Val
  | list : List Val → Val
  | dict : List (String × Val) → Val
  | style : String → Val
  | transform : Nat → Val

/-- A Python dict with string keys, in insertion order. -/
abbrev Scope := List (String × Val)

mutual

/-- Structural (Python `==` / dict-key) equality on values. -/
def vbeq : Val → Val → Bool
  | Val.none, Val.none => true
  | Val.int a, Val.int b => a == b
  | Val.str a, Val.str b => a == b
  | Val.bool a, Val.bool b => a == b
  | Val.list a, Val.list b => vbeqL a b
  | Val.dict a, Val.dict b => vbeqP a b
  | Val.style a, Val.style b => a == b
  | Val.transform a, Val.transform b => a == b
  | _, _ => false

/-- Elementwise equality on value lists. -/
def vbeqL : List Val → List Val → Bool
  | [], [] => true
  | a :: as', b :: bs => vbeq a b && vbeqL as' bs
  | _, _ => false

/-- Elementwise equality on string-keyed pair lists. -/
def vbeqP : List (String × Val) → List (String × Val) → Bool
  | [], [] => true
  | a :: as', b :: bs => (a.1 == b.1 && vbeq a.2 b.2) && vbeqP as' bs
  | _, _ => false

end

/-- Python truthiness of a value (`if v:`). -/
def truthy : Val → Bool
  | Val.none => false
  | Val.int n => n != 0
  | Val.str s => s != ""
  | Val.bool b => b
  | Val.list l => !l.isEmpty
  | Val.dict l => !l.isEmpty
  | Val.style _ => true
  | Val.transform _ => true

/-- Dict lookup, `d[k]` / `d.get(k)`. -/
def lookupS (σ : Scope) (k : String) : Option Val :=
  match σ with
  | [] => Option.none
  | (k', v) :: rest => if k' = k then some v else lookupS rest k

/-- Dict assignment `d[k] = v`: replaces the value in place if the key is
present (keeping its position), appends otherwise — Python dict
insertion-order semantics. -/
def setVar (σ : Scope) (k : String) (v : Val) : Scope :=
  match σ with
  | [] => [(k, v)]
  | (k', v') :: rest =>
      if k' = k then (k', v) :: rest else (k', v') :: setVar rest k v

/-- `d.update(other)`: assign every binding of `other` in order. -/
def updateAll (σ : Scope) (other : Scope) : Scope :=
  other.foldl (fun a p => setVar a p.1 p.2) σ

/-- `d.pop(k, default)`: the value bound to `k` (if any) and the dict with
that binding removed.  A `Option.none` first component models the default
(`NotGiven` / `None`) case, i.e. the key was absent. -/
def popKey (σ : Scope) (k : String) : Option Val × Scope :=
  match lookupS σ k with
  | Option.none => (Option.none, σ)
  | some v => (some v, σ.filter (fun p => p.1 ≠ k))

/-- Modelled from the spec: the embedded expression language produced by
`renpy.python.py_compile` (not under `src/`).  `lit` is an expression the
constant analysis classifies as a compile-time constant; `var` is a
dynamic expression reading one scope variable. -/
inductive Expr where
  | lit : Val → Expr
  | var : String → Expr

/-- Modelled from the spec: `renpy.sl2.pyutil.is_constant` (not under
`src/`) — "a predicate reports whether a given pre-parsed expression is a
compile-time constant". -/
def is_constant : Expr → Bool
  | Expr.lit _ => true
  | Expr.var _ => false

/-- The value of an expression already classified constant (evaluating its
compiled form needs no scope). -/
def constVal : Expr → Val
  | Expr.lit v => v
  | Expr.var _ => Val.none

/-- Modelled from the spec: `renpy.python.py_eval_bytecode` on a single
compiled expression — "evaluating a compiled unit requires a scope mapping
and yields a value".  `none` is an evaluation error (e.g. NameError). -/
def evalE (e : Expr) (σ : Scope) : Option Val :=
  match e with
  | Expr.lit v => some v
  | Expr.var x => lookupS σ x

/-- Evaluate a list of keyed expressions left to right
(errors propagate). -/
def evalPairs (kvs : List (String × Expr)) (σ : Scope) :
    Option (List (String × Val)) :=
  match kvs with
  | [] => some []
  | p :: rest => do
      let v ← evalE p.2 σ
      let vs ← evalPairs rest σ
      pure ((p.1, v) :: vs)

/-- Evaluating the combined dynamic-keyword unit: a compiled
`ast.Dict` literal.  All value expressions are evaluated left to right
(errors propagate); the dict is then built in key order, later duplicate
keys overwriting earlier ones. -/
def evalDict (kvs : List (String × Expr)) (σ : Scope) : Option Scope :=
  (evalPairs kvs σ).map (updateAll [])

/-- Evaluating the combined positional unit: a compiled `ast.Tuple`
literal — all element expressions evaluated left to right. -/
def evalTuple (es : List Expr) (σ : Scope) : Option (List Val) :=
  match es with
  | [] => some []
  | e :: rest => do
      let v ← evalE e σ
      let vs ← evalTuple rest σ
      pure (v :: vs)

/-- An item of a positional-argument list at execution time.  `v` is an
ordinary value; `useExpr` is the module-level `use_expression` sentinel
stored at dynamic slots of `positional_values`; `ctxI` is the child
`SLContext` object that `pass_context` inserts at position 0. -/
inductive PItem where
  | v : Val → PItem
  | useExpr : PItem
  | ctxI : PItem

/-- A constructed UI element.  `Elem.mk tag pos kw ch` is the result of
calling the external construction function identified by `tag` with the
given positional and keyword arguments, with `ch` the children later
attached via `d.add(i)`.  `Elem.transformed t e` is `t(e)` for the
transform value `t` popped from the `at` keyword. -/
inductive Elem where
  | mk : Nat → List PItem → Scope → List Elem → Elem
  | transformed : Val → Elem → Elem

/-- `SLContext` (src/renpy/sl2/slast.py:51-76).  A derived context shares
the parent's `scope` (mutations flow back to the caller, which the
interpreter models by threading the final scope outward) and starts from
the parent's `children` / `keywords` / `style_prefix` (the latter is the
field `style_pfx` here). -/
structure Ctx where
  scope : Scope
  children : List Elem
  keywords : Scope
  style_pfx : String

/-- One construction-function invocation:
`self.displayable(*positional, **keywords)` (src line 324). -/
structure Call where
  tag : Nat
  positional : List PItem
  keywords : Scope

/-- Association lookup with value keys (`widget_id in screen.widget_properties`). -/
def lookupV {α : Type} (l : List (Val × α)) (k : Val) : Option α :=
  match l with
  | [] => Option.none
  | (k', v) :: rest => if vbeq k' k then some v else lookupV rest k

/-- Association update with value keys (`screen.widgets[widget_id] = d`). -/
def setV {α : Type} (l : List (Val × α)) (k : Val) (v : α) : List (Val × α) :=
  match l with
  | [] => [(k, v)]
  | (k', v') :: rest =>
      if vbeq k' k then (k', v) :: rest else (k', v') :: setV rest k v

/-- The externally owned state the core reads and writes.
`store` is the evaluator's global store — modelled from the spec: it is
the environment `py_eval_bytecode` falls back to when a call site supplies
no scope mapping.  `widget_properties` and `widgets` belong to
`renpy.ui.screen`; `imagemap_stack` is `renpy.ui.imagemap_stack` (only its
depth matters to this core); `calls` logs construction invocations. -/
structure World where
  store : Scope
  widget_properties : List (Val × Scope)
  widgets : List (Val × Elem)
  imagemap_stack : Nat
  calls : List Call

/-- An empty world. -/
def World.empty : World :=
  { store := [], widget_properties := [], widgets := [], imagemap_stack := 0, calls := [] }

-- Basic lemmas about the dict operations.

theorem lookupS_setVar_self (σ : Scope) (k : String) (v : Val) :
    lookupS (setVar σ k v) k = some v := by
  induction σ with
  | nil => simp [setVar, lookupS]
  | cons p rest ih =>
      by_cases h : p.1 = k
      · simp [setVar, lookupS, h]
      · simp [setVar, lookupS, h, ih]

theorem lookupS_setVar_other (σ : Scope) (k k' : String) (v : Val) (h : k' ≠ k) :
    lookupS (setVar σ k v) k' = lookupS σ k' := by
  induction σ with
  | nil => simp [setVar, lookupS, Ne.symm h]
  | cons p rest ih =>
      by_cases hp : p.1 = k
      · simp [setVar, lookupS, hp, Ne.symm h]
      · simp [setVar, lookupS, hp, ih]

theorem setVar_setVar_self (σ : Scope) (k : String) (v v' : Val) :
    setVar (setVar σ k v) k v' = setVar σ k v' := by
  induction σ with
  | nil => simp [setVar]
  | cons p rest ih =>
      by_cases h : p.1 = k
      · simp [setVar, h]
      · simp [setVar, h, ih]

/-- The configuration flags of `SLDisplayable.__init__`
(src/renpy/sl2/slast.py:203-240).  `tag` identifies the external
construction function (`self.displayable`).  `scopeFlag` is the `scope`
parameter; `child_or_fixed` is stored but never consulted by this
version's `execute`. -/
structure DispConf where
  tag : Nat
  scopeFlag : Bool
  child_or_fixed : Bool
  style : Option String
  pass_context : Bool
  imagemap : Bool

mutual

/-- A screen language node — the closed set of `SLNode` variants that the
file defines.  Compiled (prepare-produced) state is carried alongside the
declared state; before `prepare` it holds its construction-time defaults.

* `ndisp conf positional positional_values positional_exprs b` is
  `SLDisplayable` (declared positional expression list plus the two
  prepared structures of lines 267-277) extending the block `b`.
* `nif entries prepared_entries` is `SLIf` (lines 350-392).
* `nfor variable expression expression_value expression_expr b` is
  `SLFor` (lines 396-436), extending the block `b`.
* `npython code` is `SLPython` (lines 439-448).
* `npass` is `SLPass` (lines 451-454).
* `ndefault variable expression expr` is `SLDefault` (lines 457-472);
  `expr` is the compiled expression, absent before `prepare`.
* `nblock b` is a bare `SLBlock` used as a child node. -/
inductive Node where
  | ndisp : DispConf → List Expr → Option (List PItem) → Option (List Expr) → Block → Node
  | nif : List (Option Expr × Block) → List (Option Expr × Block) → Node
  | nfor : String → Expr → Val → Option Expr → Block → Node
  | npython : List (String × Expr) → Node
  | npass : Node
  | ndefault : String → Expr → Option Expr → Node
  | nblock : Block → Node

/-- `SLBlock` (src/renpy/sl2/slast.py:117-193): the declared keyword
(name, expression) pairs and child nodes, plus the compiled
`keyword_values` / `keyword_exprs` of `prepare` (lines 139-165). -/
inductive Block where
  | mk : List (String × Expr) → List Node → Option Scope →
      Option (List (String × Expr)) → Block

end

/-- The declared keyword list of a block. -/
def Block.keyword : Block → List (String × Expr)
  | Block.mk kw _ _ _ => kw

/-- The child nodes of a block. -/
def Block.children : Block → List Node
  | Block.mk _ ch _ _ => ch

/-- The prepared constant-keyword dict (`self.keyword_values`). -/
def Block.keyword_values : Block → Option Scope
  | Block.mk _ _ kv _ => kv

/-- The prepared dynamic-keyword unit (`self.keyword_exprs`). -/
def Block.keyword_exprs : Block → Option (List (String × Expr))
  | Block.mk _ _ _ ke => ke

/-- The prepared `positional_values` list of `SLDisplayable.prepare`
(src lines 255-270): constant slots hold their precomputed value, dynamic
slots hold the `use_expression` sentinel; the whole list is `None` when no
slot is constant. -/
def pvOf (positional : List Expr) : Option (List PItem) :=
  if positional.any (fun a => is_constant a) then
    some (positional.map (fun a =>
      if is_constant a then PItem.v (constVal a) else PItem.useExpr))
  else Option.none

/-- The prepared `positional_exprs` tuple of `SLDisplayable.prepare`
(src lines 255-277): dynamic slots keep their expression, constant slots
get the `ast.Num(n=0)` placeholder; the whole unit is `None` when no slot
is dynamic. -/
def peOf (positional : List Expr) : Option (List Expr) :=
  if positional.any (fun a => !is_constant a) then
    some (positional.map (fun a =>
      if is_constant a then Expr.lit (Val.int 0) else a))
  else Option.none

/-- The prepared `keyword_values` dict of `SLBlock.prepare`
(src lines 141-158): the constant keywords evaluated once, in declared
order; `None` when empty. -/
def kvOf (kw : List (String × Expr)) : Option Scope :=
  let vals := (kw.filter (fun p => is_constant p.2)).foldl
    (fun a p => setVar a p.1 (constVal p.2)) []
  if vals.isEmpty then Option.none else some vals

/-- The prepared `keyword_exprs` unit of `SLBlock.prepare`
(src lines 143-165): the dynamic keywords as a single compiled dict
expression, in declared order; `None` when empty. -/
def keOf (kw : List (String × Expr)) : Option (List (String × Expr)) :=
  let exprs := kw.filter (fun p => !is_constant p.2)
  if exprs.isEmpty then Option.none else some exprs

mutual

/-- `prepare` on a node (dispatching on the variant as Python's dynamic
dispatch does).  `SLIf.prepare` (lines 366-378) compiles each present
condition (compilation is the identity in this model) and prepares every
branch block; `SLFor.prepare` (lines 408-418) classifies the source
expression; `SLDefault.prepare` (line 463-464) compiles the expression;
`SLPython` and `SLPass` use the no-op default (lines 90-97). -/
def prepareNode : Node → Node
  | Node.ndisp conf pos _ _ b =>
      Node.ndisp conf pos (pvOf pos) (peOf pos) (prepareBlock b)
  | Node.nif entries _ => Node.nif entries (prepareEntries entries)
  | Node.nfor v e _ _ b =>
      if is_constant e then
        Node.nfor v e (constVal e) Option.none (prepareBlock b)
      else
        Node.nfor v e Val.none (some e) (prepareBlock b)
  | Node.npython code => Node.npython code
  | Node.npass => Node.npass
  | Node.ndefault v e _ => Node.ndefault v e (some e)
  | Node.nblock b => Node.nblock (prepareBlock b)

/-- `SLBlock.prepare` (src lines 134-165): prepare every child, then
partition the keyword list into precomputed constants and a combined
dynamic unit. -/
def prepareBlock : Block → Block
  | Block.mk kw ch _ _ => Block.mk kw (prepareChildren ch) (kvOf kw) (keOf kw)

/-- `for i in self.children: i.prepare()`. -/
def prepareChildren : List Node → List Node
  | [] => []
  | n :: rest => prepareNode n :: prepareChildren rest

/-- The `prepared_entries` loop of `SLIf.prepare` (src lines 370-378). -/
def prepareEntries :
    List (Option Expr × Block) → List (Option Expr × Block)
  | [] => []
  | (c, b) :: rest => (c, prepareBlock b) :: prepareEntries rest

end

/-- The `style_group` handling of `SLBlock.keywords`
(src lines 185-190): pop `style_group` from `context.keywords`; when it
was given, recompute `context.style_prefix` as the value plus `"_"`, or
reset it to `""` when the value is `None`.  A non-string, non-`None` value
makes `style_group + "_"` raise, modelled as `none`. -/
def applyStyleGroup (ctx : Ctx) : Option Ctx :=
  match popKey ctx.keywords "style_group" with
  | (Option.none, _) => some ctx
  | (some Val.none, kws) => some { ctx with keywords := kws, style_pfx := "" }
  | (some (Val.str s), kws) =>
      some { ctx with keywords := kws, style_pfx := s ++ "_" }
  | (some _, _) => Option.none

mutual

/-- The `keywords` method of each node variant.  `SLDisplayable` and the
bare `SLBlock` inherit `SLBlock.keywords`; `SLIf.keywords` (src lines
387-392) scans its prepared entries; `SLFor.keywords` (line 435-436)
is an explicit no-op; `SLPython`, `SLPass` and `SLDefault` use the
`SLNode.keywords` no-op default (lines 106-112). -/
def keywordsNode (n : Node) (ctx : Ctx) (w : World) : Option Ctx :=
  match n with
  | Node.ndisp _ _ _ _ b => keywordsBlock b ctx w
  | Node.nif _ pe => kwIfEntries pe ctx w
  | Node.nfor _ _ _ _ _ => some ctx
  | Node.npython _ => some ctx
  | Node.npass => some ctx
  | Node.ndefault _ _ _ => some ctx
  | Node.nblock b => keywordsBlock b ctx w

/-- `SLBlock.keywords` (src lines 173-193): merge the precomputed constant
keywords into `context.keywords`; evaluate the combined dynamic unit, if
present, and merge its result; resolve `style_group`; recurse into every
child.  NOTE the dynamic unit is evaluated by
`py_eval_bytecode(keyword_exprs)` with *no* scope argument (line 183,
unlike every other evaluation call site in the file), so the external
evaluator falls back to its global store `w.store` rather than
`context.scope`. -/
def keywordsBlock (b : Block) (ctx : Ctx) (w : World) : Option Ctx :=
  match b with
  | Block.mk _ ch kv ke => do
      let ctx1 :=
        match kv with
        | some vals => { ctx with keywords := updateAll ctx.keywords vals }
        | Option.none => ctx
      let ctx2 ←
        match ke with
        | some exprs => do
            let d ← evalDict exprs w.store
            pure { ctx1 with keywords := updateAll ctx1.keywords d }
        | Option.none => pure ctx1
      let ctx3 ← applyStyleGroup ctx2
      keywordsChildren ch ctx3 w

/-- `for i in self.children: i.keywords(context)` (src lines 192-193). -/
def keywordsChildren (l : List Node) (ctx : Ctx) (w : World) : Option Ctx :=
  match l with
  | [] => some ctx
  | n :: rest => do
      let ctx' ← keywordsNode n ctx w
      keywordsChildren rest ctx' w

/-- The branch scan of `SLIf.keywords` (src lines 389-392): act on the
first entry whose condition is absent or truthy, then stop. -/
def kwIfEntries (l : List (Option Expr × Block)) (ctx : Ctx) (w : World) :
    Option Ctx :=
  match l with
  | [] => some ctx
  | (c, b) :: rest =>
      match c with
      | Option.none => keywordsBlock b ctx w
      | some e => do
          let v ← evalE e ctx.scope
          if truthy v then keywordsBlock b ctx w else kwIfEntries rest ctx w

end

/-- Python truthiness of an optional list (`if positional_values and
positional_exprs:` — `None` and the empty list are falsy). -/
def optListTruthy {α : Type} : Option (List α) → Bool
  | Option.none => false
  | some l => !l.isEmpty

/-- Python truthiness of `self.style` (`None` or a string). -/
def strOptTruthy : Option String → Bool
  | Option.none => false
  | some s => !s.isEmpty

/-- `widget_id is None` — identity with the `None` singleton. -/
def isNoneV : Val → Bool
  | Val.none => true
  | _ => false

/-- The recombination of line 288:
`[ b if (a is use_expression) else a for a, b in zip(positional_values, values) ]`. -/
def zipRebuild (pv : List PItem) (values : List Val) : List PItem :=
  (pv.zip values).map (fun p =>
    match p.1 with
    | PItem.useExpr => PItem.v p.2
    | a => a)

/-- The result of the positional-argument resolution of
`SLDisplayable.execute` (src lines 283-294).  `aliased` records that
`positional` is the very list object stored in `self.positional_values`
(the `positional = positional_values` branch of line 290); `isTuple`
records that `positional` is the tuple returned by the evaluator
(line 292), which has no `insert` method. -/
structure ResolvedPos where
  positional : List PItem
  aliased : Bool
  isTuple : Bool

/-- Lines 283-294 of `SLDisplayable.execute`: evaluate the combined
dynamic unit if present and recombine with the precomputed values. -/
def resolvePositional (pv : Option (List PItem)) (pe : Option (List Expr))
    (σ : Scope) : Option ResolvedPos :=
  if optListTruthy pv && optListTruthy pe then do
    let values ← evalTuple (pe.getD []) σ
    pure ⟨zipRebuild (pv.getD []) values, false, false⟩
  else if optListTruthy pv then
    pure ⟨pv.getD [], true, false⟩
  else if optListTruthy pe then do
    let values ← evalTuple (pe.getD []) σ
    pure ⟨values.map PItem.v, false, true⟩
  else pure ⟨[], false, false⟩

/-- Everything `SLDisplayable.execute` computes before invoking the
construction function (src lines 279-322): the final positional list, the
final keyword mapping, the popped `id` and `at` values, and the child
context (whose `keywords` dict is the same object as the final keyword
mapping). -/
structure DispArgs where
  positional : List PItem
  keywords : Scope
  widget_id : Val
  transform : Val
  cctx : Ctx
  aliased : Bool
  resolvedPos : List PItem

/-- Lines 279-322 of `SLDisplayable.execute`:
1. resolve positional arguments;
2. derive a child context with fresh `keywords` / `children`;
3. run `SLBlock.keywords` against it;
4. under `pass_context`, insert the child context at position 0
   (`insert` on the tuple of the pure-dynamic path raises);
5. default the `style` keyword from `ctx.style_prefix + self.style`;
6. under the `scope` flag, bind the `scope` keyword to the scope mapping;
7. pop the reserved keywords `id` and `at`;
8. merge the widget-property overrides for `id`, which win. -/
def dispConstructArgs (conf : DispConf) (pv : Option (List PItem))
    (pe : Option (List Expr)) (b : Block) (context : Ctx) (w : World) :
    Option DispArgs := do
  let rp ← resolvePositional pv pe context.scope
  let cctx0 : Ctx :=
    { scope := context.scope, children := [], keywords := [],
      style_pfx := context.style_pfx }
  let cctx1 ← keywordsBlock b cctx0 w
  let positional ←
    if conf.pass_context then
      if rp.isTuple then Option.none else some (PItem.ctxI :: rp.positional)
    else some rp.positional
  let cctx2 :=
    if (lookupS cctx1.keywords "style").isNone && strOptTruthy conf.style then
      { cctx1 with keywords := (setVar cctx1.keywords "style"
          (Val.style (cctx1.style_pfx ++ conf.style.getD ""))) }
    else cctx1
  let cctx3 :=
    if conf.scopeFlag then
      { cctx2 with keywords := setVar cctx2.keywords "scope" (Val.dict cctx2.scope) }
    else cctx2
  let (idv, kws1) := popKey cctx3.keywords "id"
  let widget_id := idv.getD Val.none
  let (atv, kws2) := popKey kws1 "at"
  let transform := atv.getD Val.none
  let kws3 :=
    match lookupV w.widget_properties widget_id with
    | some props => updateAll kws2 props
    | Option.none => kws2
  pure { positional := positional, keywords := kws3, widget_id := widget_id,
         transform := transform, cctx := { cctx3 with keywords := kws3 },
         aliased := rp.aliased, resolvedPos := rp.positional }

/-- The content of `self.positional_values` after one completed or failed
`execute` call.  In the pure-constant branch (line 290) `positional` *is*
the stored `positional_values` list, so the `positional.insert(0, ctx)`
of line 305 under `pass_context` mutates the node itself; in every other
branch the stored field is untouched.  (`none` means the call raised
before reaching the insert, leaving the field unchanged — only the
successful-insert shape matters below.) -/
def storedPVAfterExec (conf : DispConf) (pv : Option (List PItem))
    (pe : Option (List Expr)) (σ : Scope) : Option (Option (List PItem)) := do
  let rp ← resolvePositional pv pe σ
  if conf.pass_context then
    if rp.isTuple then Option.none
    else pure (if rp.aliased then some (PItem.ctxI :: rp.positional) else pv)
  else pure pv

/-- `SLPython.execute` (src lines 447-448) runs a compiled statement block
against the scope.  Modelled from the spec: "evaluating a compiled
statement block mutates the given scope mapping directly" — the block is
modelled as a sequence of variable assignments. -/
def execStmts : List (String × Expr) → Scope → Option Scope
  | [], σ => some σ
  | (x, e) :: rest, σ => do
      let v ← evalE e σ
      execStmts rest (setVar σ x v)

theorem sizeOf_block_children_lt (b : Block) : sizeOf b.children < sizeOf b := by
  cases b with
  | mk kw ch kv ke => simp [Block.children]; omega

mutual

/-- The `execute` method of each node variant.  The abstract
`SLNode.execute` raises unconditionally (src lines 99-104) and is never
constructed, so the variant set here is closed. -/
def executeNode (n : Node) (ctx : Ctx) (w : World) : Option (Ctx × World) :=
  match n with
  | Node.ndisp conf _ pv pe b => do
      -- SLDisplayable.execute, src lines 279-341.
      let da ← dispConstructArgs conf pv pe b ctx w
      -- d = self.displayable(*positional, **keywords)   (line 324)
      let w1 := { w with calls := w.calls ++
        [⟨conf.tag, da.positional, da.keywords⟩] }
      -- SLBlock.execute(self, ctx)                      (line 327)
      let r ← executeChildren b.children da.cctx w1
      -- for i in ctx.children: d.add(i)                 (lines 329-330)
      let d := Elem.mk conf.tag da.positional da.keywords r.1.children
      -- screen.widgets[widget_id] = d                   (lines 332-333)
      let w3 :=
        if isNoneV da.widget_id then r.2
        else { r.2 with widgets := setV r.2.widgets da.widget_id d }
      -- d = transform(d)                                (lines 335-336)
      let d2 := if isNoneV da.transform then d else Elem.transformed da.transform d
      -- context.children.append(d)                      (line 338)
      let ctx' := { ctx with scope := r.1.scope, children := ctx.children ++ [d2] }
      -- renpy.ui.imagemap_stack.pop()                   (lines 340-341)
      if conf.imagemap then
        match w3.imagemap_stack with
        | 0 => Option.none
        | Nat.succ k => some (ctx', { w3 with imagemap_stack := k })
      else some (ctx', w3)
  | Node.nif _ pe => execIfEntries pe ctx w
  | Node.nfor v _ ev ee b => do
      -- SLFor.execute, src lines 420-433.
      let value ←
        match ee with
        | some ex => evalE ex ctx.scope
        | Option.none => pure ev
      match value with
      | Val.list l => execForIter v b l ctx w
      | _ => Option.none
  | Node.npython code => do
      let σ' ← execStmts code ctx.scope
      some ({ ctx with scope := σ' }, w)
  | Node.npass => some (ctx, w)
  | Node.ndefault v _ ce =>
      -- SLDefault.execute, src lines 466-472.
      if (lookupS ctx.scope v).isSome then some (ctx, w)
      else do
        let e ← ce
        let val ← evalE e ctx.scope
        some ({ ctx with scope := setVar ctx.scope v val }, w)
  | Node.nblock b => executeChildren b.children ctx w
termination_by (sizeOf n, 0)
decreasing_by
  all_goals simp_wf
  all_goals apply Prod.Lex.left
  all_goals first
    | omega
    | (have hlt := sizeOf_block_children_lt b; omega)

/-- `SLBlock.execute` (src lines 168-171): run each child's `execute` in
sequence against the shared context. -/
def executeChildren (l : List Node) (ctx : Ctx) (w : World) :
    Option (Ctx × World) :=
  match l with
  | [] => some (ctx, w)
  | n :: rest => do
      let r ← executeNode n ctx w
      executeChildren rest r.1 r.2
termination_by (sizeOf l, 0)
decreasing_by
  all_goals simp_wf
  all_goals apply Prod.Lex.left
  all_goals omega

/-- The branch scan of `SLIf.execute` (src lines 380-385): run the first
entry whose condition is absent or truthy, then return. -/
def execIfEntries (l : List (Option Expr × Block)) (ctx : Ctx) (w : World) :
    Option (Ctx × World) :=
  match l with
  | [] => some (ctx, w)
  | (c, b) :: rest =>
      match c with
      | Option.none => executeChildren b.children ctx w
      | some e => do
          let v ← evalE e ctx.scope
          if truthy v then executeChildren b.children ctx w
          else execIfEntries rest ctx w
termination_by (sizeOf l, 0)
decreasing_by
  all_goals simp_wf
  all_goals apply Prod.Lex.left
  all_goals first
    | omega
    | (have hlt := sizeOf_block_children_lt b; omega)

/-- The loop of `SLFor.execute` (src lines 430-433): bind the loop
variable in the shared scope, then run the block body (its children)
against the same context. -/
def execForIter (v : String) (b : Block) (l : List Val) (ctx : Ctx)
    (w : World) : Option (Ctx × World) :=
  match l with
  | [] => some (ctx, w)
  | i :: rest => do
      let r ← executeChildren b.children
        { ctx with scope := setVar ctx.scope v i } w
      execForIter v b rest r.1 r.2
termination_by (sizeOf b, sizeOf l)
decreasing_by
  all_goals simp_wf
  all_goals first
    | (apply Prod.Lex.left; have hlt := sizeOf_block_children_lt b; omega)
    | (apply Prod.Lex.right; omega)

end

/-- The concrete classes of the file whose constructors can run. -/
inductive Variant where
  | vnode | vblock | vdisplayable | vif | vfor | vpython | vpass | vdefault

/-- The serial-number effect of each class's construction, threading the
module-global `serial` counter (src line 32).  The returned pair is
(`self.serial` after `__init__` — `Option.none` when the attribute is
never set — , the counter after `__init__`).  Reading off the source:

* `SLNode.__init__` (lines 84-88) increments the global counter and
  stores it.
* `SLBlock` is declared `class SLBlock(object)` (line 117): it does *not*
  derive from `SLNode`, and its `super(SLBlock, self).__init__()` is
  `object.__init__` — no serial.
* `SLDisplayable.__init__` (line 228) chains to `SLBlock.__init__` —
  no serial.
* `SLIf.__init__` (line 360) chains to `SLNode.__init__` — serial set.
* `SLFor.__init__` (line 403) chains to `SLBlock.__init__` — no serial.
* `SLPython.__init__` (line 442) calls `super(SLNode, self).__init__()` —
  the superclass *of* `SLNode`, i.e. `object.__init__`, skipping
  `SLNode.__init__` — no serial.
* `SLPass` defines no `__init__` and inherits `SLNode.__init__` —
  serial set.
* `SLDefault.__init__` (lines 459-461) calls no super constructor —
  no serial. -/
def initSerial : Variant → Nat → Option Nat × Nat
  | Variant.vnode, s => (some (s + 1), s + 1)
  | Variant.vblock, s => (Option.none, s)
  | Variant.vdisplayable, s => (Option.none, s)
  | Variant.vif, s => (some (s + 1), s + 1)
  | Variant.vfor, s => (Option.none, s)
  | Variant.vpython, s => (Option.none, s)
  | Variant.vpass, s => (some (s + 1), s + 1)
  | Variant.vdefault, s => (Option.none, s)


-- ======================================================================
-- Helper lemmas shared by several claims.
-- ======================================================================

theorem lookupS_filter_self (σ : Scope) (k : String) :
    lookupS (σ.filter (fun p => p.1 ≠ k)) k = Option.none := by
  induction σ with
  | nil => simp [lookupS]
  | cons p rest ih =>
      by_cases h : p.1 = k
      · simpa [List.filter_cons, h, decide_not] using ih
      · simpa [List.filter_cons, h, lookupS, decide_not] using ih

theorem lookupS_filter_none (σ : Scope) (k k' : String)
    (h : lookupS σ k' = Option.none) :
    lookupS (σ.filter (fun p => p.1 ≠ k)) k' = Option.none := by
  induction σ with
  | nil => simp [lookupS]
  | cons p rest ih =>
      by_cases hp : p.1 = k'
      · simp [lookupS, hp] at h
      · simp only [lookupS, hp, if_false] at h
        by_cases hq : p.1 = k
        · simpa [List.filter_cons, hq, decide_not] using ih h
        · simpa [List.filter_cons, hq, lookupS, hp, decide_not] using ih h

theorem lookupS_popKey_self (σ : Scope) (k : String) :
    lookupS (popKey σ k).2 k = Option.none := by
  unfold popKey
  cases h : lookupS σ k with
  | none => simp [h]
  | some v => simpa [h, decide_not] using lookupS_filter_self σ k

theorem lookupS_popKey_none (σ : Scope) (k k' : String)
    (h : lookupS σ k' = Option.none) :
    lookupS (popKey σ k).2 k' = Option.none := by
  unfold popKey
  cases hk : lookupS σ k with
  | none => simpa [hk] using h
  | some v => simpa [hk, decide_not] using lookupS_filter_none σ k k' h

theorem lookupS_none_of_forall (props : Scope) (k : String)
    (h : ∀ p ∈ props, p.1 ≠ k) : lookupS props k = Option.none := by
  induction props with
  | nil => simp [lookupS]
  | cons p rest ih =>
      have h1 : p.1 ≠ k := h p (by simp)
      simp only [lookupS, h1, if_false]
      exact ih (fun q hq => h q (by simp [hq]))

theorem forall_of_lookupS_none (props : Scope) (k : String)
    (h : lookupS props k = Option.none) : ∀ p ∈ props, p.1 ≠ k := by
  induction props with
  | nil => simp
  | cons p rest ih =>
      intro q hq
      by_cases hp : p.1 = k
      · simp [lookupS, hp] at h
      · simp only [lookupS, hp, if_false] at h
        rcases List.mem_cons.mp hq with h1 | h1
        · simpa [h1] using hp
        · exact ih h q h1

theorem lookupS_updateAll_none (σ props : Scope) (k : String)
    (h1 : lookupS σ k = Option.none) (h2 : lookupS props k = Option.none) :
    lookupS (updateAll σ props) k = Option.none := by
  induction props generalizing σ with
  | nil => simpa [updateAll] using h1
  | cons p rest ih =>
      have hp : p.1 ≠ k := forall_of_lookupS_none _ _ h2 p (by simp)
      have h2' : lookupS rest k = Option.none := by
        simpa [lookupS, hp] using h2
      have hσ : lookupS (setVar σ p.1 p.2) k = Option.none := by
        rw [lookupS_setVar_other _ _ _ _ (Ne.symm hp)]
        exact h1
      simpa [updateAll] using ih (setVar σ p.1 p.2) hσ h2'

-- ======================================================================
-- C3 — serial numbers at construction.
-- ======================================================================

/-- C3, as stated, is false on this code: it claims every variant (Block,
Displayable, If, For, Python, Pass, Default) is assigned a serial from the
process-wide counter at construction.  Concretely, constructing an
`SLDefault` (whose `__init__` calls no super constructor) leaves the
serial unset and the counter untouched — likewise Block, Displayable, For
and Python. -/
theorem c3_counterexample :
    ¬ (∀ (v : Variant) (s : Nat), (initSerial v s).1 = some (s + 1)) := by
  intro h
  have hd := h Variant.vdefault 0
  simp [initSerial] at hd

/-- C3 (amended): only the variants whose construction actually reaches
`SLNode.__init__` — `SLNode` itself, `SLIf`, and `SLPass` — are assigned
a serial, namely the incremented process-wide counter, which makes the
serials of such nodes unique and monotonically increasing across a
construction sequence; `SLBlock`, `SLDisplayable`, `SLFor` (not derived
from `SLNode`), `SLPython` (whose `super(SLNode, self).__init__()` skips
`SLNode.__init__`) and `SLDefault` (no super call) assign no serial and
leave the counter unchanged.  Serials play no part in `prepare`,
`execute` or `keywords`. -/
theorem c3_amended (s : Nat) :
    (initSerial Variant.vnode s = (some (s + 1), s + 1) ∧
     initSerial Variant.vif s = (some (s + 1), s + 1) ∧
     initSerial Variant.vpass s = (some (s + 1), s + 1)) ∧
    (initSerial Variant.vblock s = (Option.none, s) ∧
     initSerial Variant.vdisplayable s = (Option.none, s) ∧
     initSerial Variant.vfor s = (Option.none, s) ∧
     initSerial Variant.vpython s = (Option.none, s) ∧
     initSerial Variant.vdefault s = (Option.none, s)) ∧
    (∀ (v : Variant) (n : Nat), (initSerial v s).1 = some n →
        n = (initSerial v s).2 ∧ s < n) ∧
    (∀ (v1 v2 : Variant) (n1 n2 : Nat),
        (initSerial v1 s).1 = some n1 →
        (initSerial v2 (initSerial v1 s).2).1 = some n2 →
        n1 < n2) := by
  refine ⟨⟨rfl, rfl, rfl⟩, ⟨rfl, rfl, rfl, rfl, rfl⟩, ?_, ?_⟩
  · intro v n h
    cases v <;> simp [initSerial] at h ⊢ <;> omega
  · intro v1 v2 n1 n2 h1 h2
    cases v1 <;> cases v2 <;>
      simp [initSerial] at h1 h2 <;> omega

/-- Witness for the hypotheses of `c3_amended`: at counter 0, an `SLIf`
construction assigns serial 1 and moves the counter to 1, and a subsequent
`SLPass` construction assigns the strictly larger serial 2. -/
theorem c3_amended_witness :
    (initSerial Variant.vif 0).1 = some 1 ∧
    (initSerial Variant.vpass (initSerial Variant.vif 0).2).1 = some 2 ∧
    (1 : Nat) < 2 := by
  refine ⟨rfl, rfl, ?_⟩
  exact (c3_amended 0).2.2.2 Variant.vif Variant.vpass 1 2 rfl rfl

-- ======================================================================
-- C1 — node immutability under execute.
-- ======================================================================

/-- C1 fails on the code: for a Displayable node with `pass_context` set
whose positional expressions are all constant, `execute` binds
`positional` to the stored `positional_values` list itself (src line 290)
and then `positional.insert(0, ctx)` (line 305) mutates that stored
field: after one `execute` the node's `positional_values` is
`[ctx, 1]`, not the prepared `[1]`.  The `execute` call still completes,
invoking the construction function with the mutated list. -/
theorem c1_execute_mutates_stored_positional_values :
    pvOf [Expr.lit (Val.int 1)] = some [PItem.v (Val.int 1)] ∧
    peOf [Expr.lit (Val.int 1)] = Option.none ∧
    storedPVAfterExec ⟨0, false, false, Option.none, true, false⟩
        (pvOf [Expr.lit (Val.int 1)]) (peOf [Expr.lit (Val.int 1)]) [] =
      some (some [PItem.ctxI, PItem.v (Val.int 1)]) ∧
    executeNode
        (prepareNode (Node.ndisp ⟨0, false, false, Option.none, true, false⟩
          [Expr.lit (Val.int 1)] Option.none Option.none
          (Block.mk [] [] Option.none Option.none)))
        ⟨[], [], [], ""⟩ World.empty =
      some (⟨[], [Elem.mk 0 [PItem.ctxI, PItem.v (Val.int 1)] [] []], [], ""⟩,
        { World.empty with
            calls := [⟨0, [PItem.ctxI, PItem.v (Val.int 1)], []⟩] }) ∧
    some [PItem.ctxI, PItem.v (Val.int 1)] ≠ some [PItem.v (Val.int 1)] := by
  refine ⟨?_, ?_, ?_, ?_, ?_⟩
  · simp [pvOf, is_constant, constVal]
  · simp [peOf, is_constant]
  · simp [storedPVAfterExec, pvOf, peOf, is_constant, constVal,
      resolvePositional, optListTruthy]
  · simp [executeNode, executeChildren, Block.children, dispConstructArgs, resolvePositional,
      keywordsBlock, keywordsChildren, applyStyleGroup, popKey, lookupS,
      setVar, updateAll, evalDict, evalTuple, evalE, zipRebuild,
      optListTruthy, strOptTruthy, isNoneV, lookupV, setV, vbeq,
      prepareNode, prepareBlock, prepareChildren, pvOf, peOf, kvOf, keOf,
      is_constant, constVal, World.empty, evalPairs, Option.bind,
      List.foldl, List.filter]
  · simp

-- ======================================================================
-- C6 — SLBlock.keywords merge order and evaluation environment.
-- ======================================================================

/-- C6 fails on the code in one respect: the combined dynamic-keyword
unit is *not* evaluated against the current scope.  Line 183 calls
`py_eval_bytecode(keyword_exprs)` with no scope argument (every other
evaluation call site in the file passes `context.scope`), so the dynamic
keyword below reads `x` from the evaluator's global store (value 2) and
not from `context.scope` (value 1). -/
theorem c6_dynamic_keywords_ignore_scope :
    keywordsBlock
        (prepareBlock (Block.mk [("k", Expr.var "x")] []
          Option.none Option.none))
        ⟨[("x", Val.int 1)], [], [], ""⟩
        { World.empty with store := [("x", Val.int 2)] } =
      some ⟨[("x", Val.int 1)], [], [("k", Val.int 2)], ""⟩ ∧
    lookupS [("x", Val.int 1)] "x" = some (Val.int 1) ∧
    Val.int 2 ≠ Val.int 1 := by
  refine ⟨?_, ?_, ?_⟩
  · simp [keywordsBlock, keywordsChildren, prepareBlock, prepareChildren,
      kvOf, keOf, is_constant, evalDict, evalE, lookupS, World.empty,
      updateAll, setVar, applyStyleGroup, popKey, evalPairs,
      Option.bind, List.foldl, List.filter]
  · simp [lookupS]
  · simp

-- ======================================================================
-- C10 — frame effect of SLDisplayable.execute on the caller's context.
-- ======================================================================

/-- C10: every completed `SLDisplayable.execute(context)` appends exactly
one element to the caller's `context.children` (line 338) and leaves the
caller's `context.keywords` and `context.style_prefix` unchanged: all
keyword work happens in the derived child context of lines 297-299, whose
`keywords` and `children` containers are fresh, while the scope mapping
is shared with the caller. -/
theorem c10_displayable_frame (conf : DispConf) (pos : List Expr)
    (pv : Option (List PItem)) (pe : Option (List Expr)) (b : Block)
    (ctx ctx' : Ctx) (w w' : World)
    (h : executeNode (Node.ndisp conf pos pv pe b) ctx w = some (ctx', w')) :
    (∃ e, ctx'.children = ctx.children ++ [e]) ∧
    ctx'.keywords = ctx.keywords ∧
    ctx'.style_pfx = ctx.style_pfx := by
  simp only [executeNode] at h
  cases hda : dispConstructArgs conf pv pe b ctx w with
  | none => rw [hda] at h; simp at h
  | some da =>
      rw [hda] at h
      simp only [Option.bind_eq_bind, Option.some_bind] at h
      cases hr : executeChildren b.children da.cctx
          { w with calls := w.calls ++ [⟨conf.tag, da.positional, da.keywords⟩] } with
      | none => rw [hr] at h; simp at h
      | some r =>
          rw [hr] at h
          simp only [Option.bind_eq_bind, Option.some_bind] at h
          split at h
          · split at h
            · exact absurd h (by simp)
            · simp only [Option.some.injEq, Prod.mk.injEq] at h
              obtain ⟨h1, _⟩ := h
              subst h1
              exact ⟨⟨_, rfl⟩, rfl, rfl⟩
          · simp only [Option.some.injEq, Prod.mk.injEq] at h
            obtain ⟨h1, _⟩ := h
            subst h1
            exact ⟨⟨_, rfl⟩, rfl, rfl⟩

/-- Witness for `c10_displayable_frame` at a concrete successful
execution. -/
theorem c10_displayable_frame_witness :
    executeNode (Node.ndisp ⟨0, false, false, Option.none, false, false⟩ []
        Option.none Option.none (Block.mk [] [] Option.none Option.none))
        ⟨[], [], [], ""⟩ World.empty =
      some (⟨[], [Elem.mk 0 [] [] []], [], ""⟩,
        { World.empty with calls := [⟨0, [], []⟩] }) ∧
    ((∃ e, (⟨[], [Elem.mk 0 [] [] []], [], ""⟩ : Ctx).children =
        (⟨[], [], [], ""⟩ : Ctx).children ++ [e]) ∧
      (⟨[], [Elem.mk 0 [] [] []], [], ""⟩ : Ctx).keywords =
        (⟨[], [], [], ""⟩ : Ctx).keywords ∧
      (⟨[], [Elem.mk 0 [] [] []], [], ""⟩ : Ctx).style_pfx =
        (⟨[], [], [], ""⟩ : Ctx).style_pfx) := by
  have hexec : executeNode (Node.ndisp ⟨0, false, false, Option.none, false, false⟩ []
      Option.none Option.none (Block.mk [] [] Option.none Option.none))
      ⟨[], [], [], ""⟩ World.empty =
      some (⟨[], [Elem.mk 0 [] [] []], [], ""⟩,
        { World.empty with calls := [⟨0, [], []⟩] }) := by
    simp [executeNode, executeChildren, Block.children, dispConstructArgs,
      resolvePositional, keywordsBlock, keywordsChildren, applyStyleGroup,
      popKey, lookupS, setVar, updateAll, evalDict, evalTuple, evalE,
      zipRebuild, optListTruthy, strOptTruthy, isNoneV, lookupV, setV, vbeq,
      World.empty, evalPairs, Option.bind, List.foldl, List.filter]
  exact ⟨hexec, c10_displayable_frame _ _ _ _ _ _ _ _ _ hexec⟩

-- ======================================================================
-- C4 — SLIf acts on exactly the first matching branch.
-- ======================================================================

/-- C4: for a prepared If node, both `execute` (src lines 380-385) and
`keywords` (lines 387-392) act on exactly the first entry, in declared
order, whose condition is absent or evaluates truthy against the current
scope, and then stop: the result equals running just that entry's block,
independent of every later entry. -/
theorem c4_if_first_match
    (pre : List (Option Expr × Block)) (c : Option Expr × Block)
    (post : List (Option Expr × Block)) (ctx : Ctx) (w : World)
    (hpre : ∀ p ∈ pre, ∃ e v, p.1 = some e ∧ evalE e ctx.scope = some v ∧
        truthy v = false)
    (hc : c.1 = Option.none ∨ ∃ e v, c.1 = some e ∧
        evalE e ctx.scope = some v ∧ truthy v = true) :
    execIfEntries (pre ++ c :: post) ctx w =
      executeChildren c.2.children ctx w ∧
    kwIfEntries (pre ++ c :: post) ctx w = keywordsBlock c.2 ctx w := by
  revert hpre
  induction pre with
  | nil =>
      intro _
      obtain ⟨copt, cb⟩ := c
      rcases hc with hnone | ⟨e, v, he, hev, htr⟩
      · simp only at hnone
        subst hnone
        constructor <;> simp [execIfEntries, kwIfEntries]
      · simp only at he
        subst he
        constructor
        · simp [execIfEntries, hev, htr]
        · simp [kwIfEntries, hev, htr]
  | cons p rest ih =>
      intro hpre
      obtain ⟨e, v, hp1, hp2, hp3⟩ := hpre p (by simp)
      have hrest : ∀ q ∈ rest, ∃ e v, q.1 = some e ∧
          evalE e ctx.scope = some v ∧ truthy v = false :=
        fun q hq => hpre q (by simp [hq])
      obtain ⟨pc, pb⟩ := p
      simp only at hp1
      subst hp1
      have hr := ih hrest
      constructor
      · simpa [execIfEntries, hp2, hp3] using hr.1
      · simpa [kwIfEntries, hp2, hp3] using hr.2

/-- Witness for `c4_if_first_match`: a three-entry If
`[(False, B1), (True, B2), (else, B3)]` where the second branch is the
first match. -/
theorem c4_if_first_match_witness :
    (∀ p ∈ [((some (Expr.lit (Val.bool false)) : Option Expr),
        Block.mk [] [] Option.none Option.none)],
      ∃ e v, p.1 = some e ∧
        evalE e (⟨[], [], [], ""⟩ : Ctx).scope = some v ∧ truthy v = false) ∧
    ((some (Expr.lit (Val.bool true)), Block.mk [("k", Expr.lit (Val.int 9))]
        [] Option.none Option.none).1 = Option.none ∨
      ∃ e v, ((some (Expr.lit (Val.bool true)),
          Block.mk [("k", Expr.lit (Val.int 9))] [] Option.none
            Option.none) : Option Expr × Block).1 = some e ∧
        evalE e (⟨[], [], [], ""⟩ : Ctx).scope = some v ∧ truthy v = true) ∧
    (execIfEntries
        ([(some (Expr.lit (Val.bool false)), Block.mk [] [] Option.none Option.none)] ++
          (some (Expr.lit (Val.bool true)), Block.mk [("k", Expr.lit (Val.int 9))]
            [] Option.none Option.none) ::
          [((Option.none : Option Expr), Block.mk [] [] Option.none Option.none)])
        ⟨[], [], [], ""⟩ World.empty =
      executeChildren (Block.mk [("k", Expr.lit (Val.int 9))] [] Option.none
          Option.none).children ⟨[], [], [], ""⟩ World.empty ∧
      kwIfEntries
        ([(some (Expr.lit (Val.bool false)), Block.mk [] [] Option.none Option.none)] ++
          (some (Expr.lit (Val.bool true)), Block.mk [("k", Expr.lit (Val.int 9))]
            [] Option.none Option.none) ::
          [((Option.none : Option Expr), Block.mk [] [] Option.none Option.none)])
        ⟨[], [], [], ""⟩ World.empty =
      keywordsBlock (Block.mk [("k", Expr.lit (Val.int 9))] [] Option.none
          Option.none) ⟨[], [], [], ""⟩ World.empty) := by
  refine ⟨?_, ?_, ?_⟩
  · intro p hp
    simp only [List.mem_singleton] at hp
    subst hp
    exact ⟨Expr.lit (Val.bool false), Val.bool false, rfl, rfl, rfl⟩
  · exact Or.inr ⟨Expr.lit (Val.bool true), Val.bool true, rfl, rfl, rfl⟩
  · exact c4_if_first_match _ _ _ _ _
      (by intro p hp
          simp only [List.mem_singleton] at hp
          subst hp
          exact ⟨Expr.lit (Val.bool false), Val.bool false, rfl, rfl, rfl⟩)
      (Or.inr ⟨Expr.lit (Val.bool true), Val.bool true, rfl, rfl, rfl⟩)


-- ======================================================================
-- C7 — mixed constant/dynamic positional arguments keep declared order.
-- ======================================================================

/-- The intended slot-by-slot meaning of one positional argument in
declared order: a constant slot contributes its precomputed value, a
dynamic slot the result of evaluating its expression against the scope.
This is the comparison target for C7. -/
def slotResolve (σ : Scope) (e : Expr) : Option PItem :=
  if is_constant e then some (PItem.v (constVal e))
  else (evalE e σ).map PItem.v

/-- All slots resolved in declared order (comparison target for C7). -/
def slotEvalAll (pos : List Expr) (σ : Scope) : Option (List PItem) :=
  match pos with
  | [] => some []
  | e :: rest => do
      let i ← slotResolve σ e
      let rest' ← slotEvalAll rest σ
      pure (i :: rest')

theorem zipRebuild_cons (p : PItem) (ps : List PItem) (v : Val)
    (vs : List Val) :
    zipRebuild (p :: ps) (v :: vs) =
      (match p with | PItem.useExpr => PItem.v v | a => a) :: zipRebuild ps vs := by
  simp [zipRebuild, List.zip_cons_cons]

theorem c7_rebuild (pos : List Expr) (σ : Scope) :
    (evalTuple (pos.map (fun a => if is_constant a then
        Expr.lit (Val.int 0) else a)) σ).map
      (fun values => zipRebuild
        (pos.map (fun a => if is_constant a then PItem.v (constVal a)
          else PItem.useExpr)) values) =
    slotEvalAll pos σ := by
  induction pos with
  | nil => simp [evalTuple, slotEvalAll, zipRebuild]
  | cons e rest ih =>
      cases hrest : evalTuple (rest.map (fun a => if is_constant a then
          Expr.lit (Val.int 0) else a)) σ with
      | none =>
          have hr : slotEvalAll rest σ = Option.none := by
            rw [← ih]; simp [hrest]
          by_cases hc : is_constant e = true
          · simp [evalTuple, evalE, slotEvalAll, slotResolve, hc, hrest, hr]
          · cases hv : evalE e σ with
            | none => simp [evalTuple, slotEvalAll, slotResolve, hc, hv]
            | some v =>
                simp [evalTuple, slotEvalAll, slotResolve, hc, hv, hrest, hr]
      | some vs =>
          have hr : slotEvalAll rest σ =
              some (zipRebuild (rest.map (fun a => if is_constant a then
                PItem.v (constVal a) else PItem.useExpr)) vs) := by
            rw [← ih]; simp [hrest]
          by_cases hc : is_constant e = true
          · simp [evalTuple, evalE, slotEvalAll, slotResolve, hc, hrest, hr,
              zipRebuild_cons]
          · cases hv : evalE e σ with
            | none => simp [evalTuple, slotEvalAll, slotResolve, hc, hv]
            | some v =>
                simp [evalTuple, slotEvalAll, slotResolve, hc, hv, hrest, hr,
                  zipRebuild_cons]

theorem slotEvalAll_all_const (pos : List Expr) (σ : Scope)
    (h : ∀ e ∈ pos, is_constant e = true) :
    slotEvalAll pos σ = some (pos.map (fun e => PItem.v (constVal e))) := by
  induction pos with
  | nil => simp [slotEvalAll]
  | cons e rest ih =>
      have he := h e (by simp)
      simp [slotEvalAll, slotResolve, he,
        ih (fun q hq => h q (by simp [hq]))]

theorem slotEvalAll_all_dyn (pos : List Expr) (σ : Scope)
    (h : ∀ e ∈ pos, is_constant e = false) :
    slotEvalAll pos σ = (evalTuple pos σ).map (List.map PItem.v) := by
  induction pos with
  | nil => simp [slotEvalAll, evalTuple]
  | cons e rest ih =>
      have he := h e (by simp)
      have hr := ih (fun q hq => h q (by simp [hq]))
      cases hv : evalE e σ with
      | none => simp [slotEvalAll, slotResolve, evalTuple, he, hv]
      | some v =>
          cases hrest : evalTuple rest σ with
          | none =>
              rw [hrest] at hr
              simp [slotEvalAll, slotResolve, evalTuple, he, hv, hrest, hr]
          | some vs =>
              rw [hrest] at hr
              simp [slotEvalAll, slotResolve, evalTuple, he, hv, hrest, hr]

/-- C7: for a Displayable node whose positional list was prepared by
`SLDisplayable.prepare` (src lines 249-277), the positional resolution of
`execute` (lines 283-294) produces, for every scope, exactly the
slot-by-slot results in the original declared order — each slot taken
from the dynamic evaluation if it was classified dynamic and from the
precomputed value otherwise — regardless of which slots were constant vs
dynamic (pure-constant, pure-dynamic and mixed paths included). -/
theorem c7_positional_order (pos : List Expr) (σ : Scope) :
    (resolvePositional (pvOf pos) (peOf pos) σ).map (fun r => r.positional) =
      slotEvalAll pos σ := by
  by_cases hc : pos.any (fun a => is_constant a) = true
  · by_cases hd : pos.any (fun a => !is_constant a) = true
    · have hne : pos ≠ [] := by
        cases pos
        · simp at hc
        · simp
      have hpv : pvOf pos = some (pos.map (fun a => if is_constant a then
          PItem.v (constVal a) else PItem.useExpr)) := by simp [pvOf, hc]
      have hpe : peOf pos = some (pos.map (fun a => if is_constant a then
          Expr.lit (Val.int 0) else a)) := by simp [peOf, hd]
      rw [← c7_rebuild pos σ]
      cases ht : evalTuple (pos.map (fun a => if is_constant a then
          Expr.lit (Val.int 0) else a)) σ with
      | none => simp [resolvePositional, hpv, hpe, optListTruthy, hne, ht]
      | some vs => simp [resolvePositional, hpv, hpe, optListTruthy, hne, ht]
    · have hd' : pos.any (fun a => !is_constant a) = false := by
        simpa using hd
      have hall : ∀ e ∈ pos, is_constant e = true := by
        intro e he
        cases hq : is_constant e
        · have hx : pos.any (fun a => !is_constant a) = true :=
            List.any_eq_true.mpr ⟨e, he, by simp [hq]⟩
          rw [hd'] at hx
          exact absurd hx Bool.false_ne_true
        · rfl
      have hne : pos ≠ [] := by
        cases pos
        · simp at hc
        · simp
      have hmap : pos.map (fun a => if is_constant a then PItem.v (constVal a)
          else PItem.useExpr) = pos.map (fun e => PItem.v (constVal e)) :=
        List.map_congr_left (fun e he => by simp [hall e he])
      have hpv : pvOf pos = some (pos.map (fun e => PItem.v (constVal e))) := by
        rw [pvOf.eq_def]
        simp only [hc, if_true]
        rw [hmap]
      have hpe : peOf pos = Option.none := by simp [peOf, hd']
      rw [slotEvalAll_all_const pos σ hall]
      simp [resolvePositional, hpv, hpe, optListTruthy, hne]
  · have hc' : pos.any (fun a => is_constant a) = false := by simpa using hc
    have hallD : ∀ e ∈ pos, is_constant e = false := by
      intro e he
      cases hq : is_constant e
      · rfl
      · have hx : pos.any (fun a => is_constant a) = true :=
          List.any_eq_true.mpr ⟨e, he, hq⟩
        rw [hc'] at hx
        exact absurd hx Bool.false_ne_true
    have hpv : pvOf pos = Option.none := by simp [pvOf, hc']
    by_cases hd : pos.any (fun a => !is_constant a) = true
    · have hne : pos ≠ [] := by
        cases pos
        · simp at hd
        · simp
      have hmap : pos.map (fun a => if is_constant a then
          Expr.lit (Val.int 0) else a) = pos :=
        (List.map_congr_left (fun e he => by simp [hallD e he])).trans
          (List.map_id pos)
      have hpe : peOf pos = some pos := by
        rw [peOf.eq_def]
        simp only [hd, if_true]
        rw [hmap]
      rw [slotEvalAll_all_dyn pos σ hallD]
      cases ht : evalTuple pos σ with
      | none => simp [resolvePositional, hpv, hpe, optListTruthy, hne, ht]
      | some vs => simp [resolvePositional, hpv, hpe, optListTruthy, hne, ht]
    · have hd' : pos.any (fun a => !is_constant a) = false := by
        simpa using hd
      have hnil : pos = [] := by
        cases pos with
        | nil => rfl
        | cons e rest =>
            exfalso
            have h1 : is_constant e = false := hallD e (by simp)
            have hx : (e :: rest).any (fun a => !is_constant a) = true :=
              List.any_eq_true.mpr ⟨e, by simp, by simp [h1]⟩
            rw [hd'] at hx
            exact absurd hx Bool.false_ne_true
      subst hnil
      simp [resolvePositional, pvOf, peOf, optListTruthy, slotEvalAll]

-- ======================================================================
-- C5 — SLFor over [1,2,3].
-- ======================================================================

/-- The element produced by the C5 loop body at loop value `i`: the body
is a single Displayable (construction tag 5) whose one positional
argument is the dynamic expression `x`. -/
def c5elem (i : Int) : Elem := Elem.mk 5 [PItem.v (Val.int i)] [] []

/-- The construction call of the C5 loop body at loop value `i`. -/
def c5call (i : Int) : Call := ⟨5, [PItem.v (Val.int i)], []⟩

/-- The prepared C5 node: `for x in [1, 2, 3]` around one Displayable
child taking `x` as its dynamic positional argument. -/
def c5node : Node :=
  prepareNode (Node.nfor "x"
    (Expr.lit (Val.list [Val.int 1, Val.int 2, Val.int 3])) Val.none
    Option.none
    (Block.mk []
      [Node.ndisp ⟨5, false, false, Option.none, false, false⟩
        [Expr.var "x"] Option.none Option.none
        (Block.mk [] [] Option.none Option.none)]
      Option.none Option.none))

/-- C5: executing the prepared For node over `[1,2,3]` binding `x`, from
any starting context, rebinds `x` in the shared scope on each iteration
(overwriting earlier bindings, so the scope afterwards maps `x` to 3) and
appends each iteration's produced element into the same
`context.children`, giving exactly the three iterations' elements
concatenated in iteration order after the caller's existing children. -/
theorem c5_for_execute (ctx : Ctx) :
    executeNode c5node ctx World.empty =
      some ({ ctx with
                scope := setVar ctx.scope "x" (Val.int 3),
                children := ctx.children ++ [c5elem 1, c5elem 2, c5elem 3] },
        { World.empty with calls := [c5call 1, c5call 2, c5call 3] }) ∧
    lookupS (setVar ctx.scope "x" (Val.int 3)) "x" = some (Val.int 3) := by
  constructor
  · simp [c5node, c5elem, c5call, prepareNode, prepareBlock, prepareChildren,
      pvOf, peOf, kvOf, keOf, is_constant, constVal, executeNode,
      executeChildren, Block.children, execForIter, dispConstructArgs,
      resolvePositional, keywordsBlock, keywordsChildren, applyStyleGroup,
      popKey, lookupS, setVar, updateAll, evalDict, evalPairs, evalTuple,
      evalE, zipRebuild, optListTruthy, strOptTruthy, isNoneV, lookupV, setV,
      vbeq, World.empty, Option.bind, List.foldl, List.filter,
      lookupS_setVar_self, setVar_setVar_self]
  · exact lookupS_setVar_self ctx.scope "x" (Val.int 3)

-- ======================================================================
-- C8 — reserved keywords id/at and widget-property overrides.
-- ======================================================================

theorem dispConstructArgs_keywords_shape (conf : DispConf)
    (pv : Option (List PItem)) (pe : Option (List Expr)) (b : Block)
    (ctx : Ctx) (w : World) (da : DispArgs)
    (h : dispConstructArgs conf pv pe b ctx w = some da) :
    ∃ K : Scope,
      da.widget_id = ((popKey K "id").1).getD Val.none ∧
      da.keywords =
        (match lookupV w.widget_properties da.widget_id with
         | some props => updateAll (popKey (popKey K "id").2 "at").2 props
         | Option.none => (popKey (popKey K "id").2 "at").2) := by
  simp only [dispConstructArgs] at h
  cases hrp : resolvePositional pv pe ctx.scope with
  | none => rw [hrp] at h; simp at h
  | some rp =>
      rw [hrp] at h
      simp only [Option.bind_eq_bind, Option.some_bind] at h
      cases hkb : keywordsBlock b ⟨ctx.scope, [], [], ctx.style_pfx⟩ w with
      | none => rw [hkb] at h; simp at h
      | some cctx1 =>
          rw [hkb] at h
          simp only [Option.some_bind] at h
          split at h
          · split at h
            · simp at h
            · simp only [Option.some_bind, Option.pure_def,
                Option.some.injEq] at h
              subst h
              exact ⟨_, rfl, rfl⟩
          · simp only [Option.some_bind, Option.pure_def,
              Option.some.injEq] at h
            subst h
            exact ⟨_, rfl, rfl⟩

theorem vbeq_str (a b : String) : vbeq (Val.str a) (Val.str b) = (a == b) := rfl

/-- The C8 world: the screen's widget-property override table maps widget
id `"w"` to `{color: "blue"}`. -/
def c8world : World :=
  { World.empty with
      widget_properties := [(Val.str "w", [("color", Val.str "blue")])] }

/-- The C8 node: a Displayable (construction tag 7) with the constant
keywords `color="red"` and `id="w"`, prepared. -/
def c8node : Node :=
  prepareNode (Node.ndisp ⟨7, false, false, Option.none, false, false⟩ []
    Option.none Option.none
    (Block.mk [("color", Expr.lit (Val.str "red")),
      ("id", Expr.lit (Val.str "w"))] [] Option.none Option.none))

/-- C8: (general part) in every completed construction-argument
computation of `SLDisplayable.execute` (src lines 314-324), the reserved
keywords `id` and `at` are popped before construction and are absent from
the construction keywords whenever the applicable widget-property
override entry (if any) does not itself carry them; (concrete part) the
Displayable with `id="w"` and explicit keyword `color="red"` under an
override table mapping `"w"` to `{color: "blue"}` is constructed with
`color="blue"` — the override, merged last, wins — and is registered in
the widget registry under `"w"`. -/
theorem c8_reserved_keywords_and_override :
    (∀ (conf : DispConf) (pv : Option (List PItem)) (pe : Option (List Expr))
        (b : Block) (ctx : Ctx) (w : World) (da : DispArgs),
      dispConstructArgs conf pv pe b ctx w = some da →
      (∀ props, lookupV w.widget_properties da.widget_id = some props →
          lookupS props "id" = Option.none ∧
          lookupS props "at" = Option.none) →
      lookupS da.keywords "id" = Option.none ∧
        lookupS da.keywords "at" = Option.none) ∧
    executeNode c8node ⟨[], [], [], ""⟩ c8world =
      some (⟨[], [Elem.mk 7 [] [("color", Val.str "blue")] []], [], ""⟩,
        { c8world with
            widgets := [(Val.str "w",
              Elem.mk 7 [] [("color", Val.str "blue")] [])],
            calls := [⟨7, [], [("color", Val.str "blue")]⟩] }) := by
  constructor
  · intro conf pv pe b ctx w da h hover
    obtain ⟨K, _, hkw⟩ := dispConstructArgs_keywords_shape conf pv pe b ctx w da h
    rw [hkw]
    have hid : lookupS (popKey (popKey K "id").2 "at").2 "id" = Option.none :=
      lookupS_popKey_none _ _ _ (lookupS_popKey_self K "id")
    have hat : lookupS (popKey (popKey K "id").2 "at").2 "at" = Option.none :=
      lookupS_popKey_self _ _
    cases hwv : lookupV w.widget_properties da.widget_id with
    | none => simpa [hwv] using ⟨hid, hat⟩
    | some props =>
        obtain ⟨hp1, hp2⟩ := hover props hwv
        exact ⟨by simpa [hwv] using lookupS_updateAll_none _ _ _ hid hp1,
          by simpa [hwv] using lookupS_updateAll_none _ _ _ hat hp2⟩
  · simp [c8node, c8world, prepareNode, prepareBlock, prepareChildren, pvOf,
      peOf, kvOf, keOf, is_constant, constVal, executeNode, executeChildren,
      Block.children, dispConstructArgs, resolvePositional, keywordsBlock,
      keywordsChildren, applyStyleGroup, popKey, lookupS, setVar, updateAll,
      evalDict, evalPairs, evalTuple, evalE, zipRebuild, optListTruthy,
      strOptTruthy, isNoneV, lookupV, setV, vbeq_str, World.empty, Option.bind,
      List.foldl, List.filter]

/-- The construction-argument record of the C8 scenario. -/
def c8da : DispArgs :=
  ⟨[], [("color", Val.str "blue")], Val.str "w", Val.none,
    ⟨[], [], [("color", Val.str "blue")], ""⟩, false, []⟩

/-- Witness for the general part of
`c8_reserved_keywords_and_override` at the concrete C8 scenario. -/
theorem c8_reserved_keywords_and_override_witness :
    dispConstructArgs ⟨7, false, false, Option.none, false, false⟩
        Option.none Option.none
        (prepareBlock (Block.mk [("color", Expr.lit (Val.str "red")),
          ("id", Expr.lit (Val.str "w"))] [] Option.none Option.none))
        ⟨[], [], [], ""⟩ c8world = some c8da ∧
    (∀ props, lookupV c8world.widget_properties c8da.widget_id = some props →
        lookupS props "id" = Option.none ∧
        lookupS props "at" = Option.none) ∧
    (lookupS c8da.keywords "id" = Option.none ∧
      lookupS c8da.keywords "at" = Option.none) := by
  have h1 : dispConstructArgs ⟨7, false, false, Option.none, false, false⟩
      Option.none Option.none
      (prepareBlock (Block.mk [("color", Expr.lit (Val.str "red")),
        ("id", Expr.lit (Val.str "w"))] [] Option.none Option.none))
      ⟨[], [], [], ""⟩ c8world = some c8da := by
    simp [c8world, c8da, prepareBlock, prepareChildren, pvOf, peOf, kvOf,
      keOf, is_constant, constVal, dispConstructArgs, resolvePositional,
      keywordsBlock, keywordsChildren, applyStyleGroup, popKey, lookupS,
      setVar, updateAll, evalDict, evalPairs, evalTuple, evalE, zipRebuild,
      optListTruthy, strOptTruthy, isNoneV, lookupV, setV, vbeq_str, World.empty,
      Option.bind, List.foldl, List.filter]
  have h2 : ∀ props,
      lookupV c8world.widget_properties c8da.widget_id = some props →
      lookupS props "id" = Option.none ∧ lookupS props "at" = Option.none := by
    intro props hp
    simp [c8world, c8da, World.empty, lookupV, vbeq] at hp
    subst hp
    simp [lookupS]
  exact ⟨h1, h2,
    c8_reserved_keywords_and_override.1 _ _ _ _ _ _ _ h1 h2⟩

-- ======================================================================
-- C2 — constant Displayables and scope independence.
-- ======================================================================

/-- The C2 counterexample node: a Displayable (construction tag 3) with
`scope=True`, one constant positional argument `7` and one constant
keyword `c="red"`, prepared. -/
def c2node : Node :=
  prepareNode (Node.ndisp ⟨3, true, false, Option.none, false, false⟩
    [Expr.lit (Val.int 7)] Option.none Option.none
    (Block.mk [("c", Expr.lit (Val.str "red"))] [] Option.none Option.none))

/-- The construction call the C2 node makes when executed against a
context whose scope binds `u` to `i`. -/
def c2call (i : Int) : Call :=
  ⟨3, [PItem.v (Val.int 7)],
    [("c", Val.str "red"), ("scope", Val.dict [("u", Val.int i)])]⟩

/-- The element the C2 node constructs against a scope binding `u` to
`i`. -/
def c2elem (i : Int) : Elem :=
  Elem.mk 3 [PItem.v (Val.int 7)]
    [("c", Val.str "red"), ("scope", Val.dict [("u", Val.int i)])] []

/-- C2, as universally stated, is false on this code: a Displayable node
whose positional and keyword expressions are all classified constant can
still be constructed with different arguments under different scopes,
because the `scope=True` configuration binds the `scope` keyword to the
current scope mapping (src lines 311-312).  Executing the same prepared
node against scopes `{u: 1}` and `{u: 2}` invokes the construction
function with different keyword arguments. -/
theorem c2_counterexample :
    executeNode c2node ⟨[("u", Val.int 1)], [], [], ""⟩ World.empty =
      some (⟨[("u", Val.int 1)], [c2elem 1], [], ""⟩,
        { World.empty with calls := [c2call 1] }) ∧
    executeNode c2node ⟨[("u", Val.int 2)], [], [], ""⟩ World.empty =
      some (⟨[("u", Val.int 2)], [c2elem 2], [], ""⟩,
        { World.empty with calls := [c2call 2] }) ∧
    [c2call 1] ≠ [c2call 2] := by
  refine ⟨?_, ?_, ?_⟩
  · simp [c2node, c2call, c2elem, prepareNode, prepareBlock, prepareChildren,
      pvOf, peOf, kvOf, keOf, is_constant, constVal, executeNode,
      executeChildren, Block.children, dispConstructArgs, resolvePositional,
      keywordsBlock, keywordsChildren, applyStyleGroup, popKey, lookupS,
      setVar, updateAll, evalDict, evalPairs, evalTuple, evalE, zipRebuild,
      optListTruthy, strOptTruthy, isNoneV, lookupV, setV, World.empty,
      Option.bind, List.foldl, List.filter]
  · simp [c2node, c2call, c2elem, prepareNode, prepareBlock, prepareChildren,
      pvOf, peOf, kvOf, keOf, is_constant, constVal, executeNode,
      executeChildren, Block.children, dispConstructArgs, resolvePositional,
      keywordsBlock, keywordsChildren, applyStyleGroup, popKey, lookupS,
      setVar, updateAll, evalDict, evalPairs, evalTuple, evalE, zipRebuild,
      optListTruthy, strOptTruthy, isNoneV, lookupV, setV, World.empty,
      Option.bind, List.foldl, List.filter]
  · simp [c2call]

theorem resolvePositional_pe_none (pv : Option (List PItem)) (σ : Scope) :
    resolvePositional pv Option.none σ =
      some ⟨pv.getD [], optListTruthy pv, false⟩ := by
  cases pv with
  | none => simp [resolvePositional, optListTruthy]
  | some l =>
      cases l with
      | nil => simp [resolvePositional, optListTruthy]
      | cons a r => simp [resolvePositional, optListTruthy]

mutual

/-- The `keywords` traversal of a node never reads the scope except at
one place: `SLIf.keywords` evaluates branch conditions against
`context.scope` (src line 390).  (The dynamic-keyword unit of line 183
is evaluated with no scope argument, i.e. against the global store.)
This predicate marks the nodes whose `keywords` traversal is therefore
scope-independent: every If entry reachable through the recursion has an
absent or constant-classified condition. -/
def kwScopeFree : Node → Bool
  | Node.ndisp _ _ _ _ b => kwScopeFreeB b
  | Node.nif _ pe => kwScopeFreeEntries pe
  | Node.nfor _ _ _ _ _ => true
  | Node.npython _ => true
  | Node.npass => true
  | Node.ndefault _ _ _ => true
  | Node.nblock b => kwScopeFreeB b

/-- `kwScopeFree` on a block: all children are scope-free. -/
def kwScopeFreeB : Block → Bool
  | Block.mk _ ch _ _ => kwScopeFreeChildren ch

/-- `kwScopeFree` over a child list. -/
def kwScopeFreeChildren : List Node → Bool
  | [] => true
  | n :: rest => kwScopeFree n && kwScopeFreeChildren rest

/-- `kwScopeFree` over prepared If entries: each condition is absent or
constant, and each branch block is scope-free. -/
def kwScopeFreeEntries : List (Option Expr × Block) → Bool
  | [] => true
  | (c, b) :: rest =>
      (match c with | Option.none => true | some e => is_constant e) &&
        kwScopeFreeB b && kwScopeFreeEntries rest

end

/-- Two `keywords`-traversal outcomes, run from contexts that agreed on
`keywords` and style prefix but not on scope or children, agree: both
fail, or both succeed preserving their own scope and children and
producing the same keyword dict and style prefix. -/
def KwAgree (σ1 : Scope) (ch1 : List Elem) (σ2 : Scope) (ch2 : List Elem) :
    Option Ctx → Option Ctx → Prop
  | Option.none, Option.none => True
  | some c1, some c2 =>
      c1.scope = σ1 ∧ c1.children = ch1 ∧ c2.scope = σ2 ∧
        c2.children = ch2 ∧ c1.keywords = c2.keywords ∧
        c1.style_pfx = c2.style_pfx
  | Option.none, some _ => False
  | some _, Option.none => False

theorem applyStyleGroup_agree (σ1 σ2 : Scope) (ch1 ch2 : List Elem)
    (K : Scope) (sp : String) :
    KwAgree σ1 ch1 σ2 ch2 (applyStyleGroup ⟨σ1, ch1, K, sp⟩)
      (applyStyleGroup ⟨σ2, ch2, K, sp⟩) := by
  unfold applyStyleGroup
  rcases hpk : popKey K "style_group" with ⟨sgv, kws⟩
  cases sgv with
  | none => simp [hpk, KwAgree]
  | some v => cases v <;> simp [hpk, KwAgree]

theorem keywordsBlock_nn (kw : List (String × Expr)) (ch : List Node)
    (c : Ctx) (w : World) :
    keywordsBlock (Block.mk kw ch Option.none Option.none) c w =
      (applyStyleGroup c).bind (fun c3 => keywordsChildren ch c3 w) := by
  cases h : applyStyleGroup c <;> simp [keywordsBlock, h]

theorem keywordsBlock_sn (kw : List (String × Expr)) (ch : List Node)
    (vals : Scope) (c : Ctx) (w : World) :
    keywordsBlock (Block.mk kw ch (some vals) Option.none) c w =
      (applyStyleGroup { c with keywords := updateAll c.keywords vals }).bind
        (fun c3 => keywordsChildren ch c3 w) := by
  cases h : applyStyleGroup { c with keywords := updateAll c.keywords vals } <;>
    simp [keywordsBlock, h]

theorem keywordsBlock_ns (kw : List (String × Expr)) (ch : List Node)
    (exprs : List (String × Expr)) (c : Ctx) (w : World) :
    keywordsBlock (Block.mk kw ch Option.none (some exprs)) c w =
      (evalDict exprs w.store).bind (fun d =>
        (applyStyleGroup { c with keywords := updateAll c.keywords d }).bind
          (fun c3 => keywordsChildren ch c3 w)) := by
  cases hd : evalDict exprs w.store with
  | none => simp [keywordsBlock, hd]
  | some d =>
      cases h : applyStyleGroup { c with keywords := updateAll c.keywords d } <;>
        simp [keywordsBlock, hd, h]

theorem keywordsBlock_ss (kw : List (String × Expr)) (ch : List Node)
    (vals : Scope) (exprs : List (String × Expr)) (c : Ctx) (w : World) :
    keywordsBlock (Block.mk kw ch (some vals) (some exprs)) c w =
      (evalDict exprs w.store).bind (fun d =>
        (applyStyleGroup { c with
          keywords := updateAll (updateAll c.keywords vals) d }).bind
          (fun c3 => keywordsChildren ch c3 w)) := by
  cases hd : evalDict exprs w.store with
  | none => simp [keywordsBlock, hd]
  | some d =>
      cases h : applyStyleGroup { c with
          keywords := updateAll (updateAll c.keywords vals) d } <;>
        simp [keywordsBlock, hd, h]

mutual

/-- `keywords` on a scope-free node yields agreeing outcomes from
contexts that differ only in scope and children. -/
theorem kwNode_scopeFree (n : Node) (σ1 σ2 : Scope) (ch1 ch2 : List Elem)
    (K : Scope) (sp : String) (w : World) (h : kwScopeFree n = true) :
    KwAgree σ1 ch1 σ2 ch2 (keywordsNode n ⟨σ1, ch1, K, sp⟩ w)
      (keywordsNode n ⟨σ2, ch2, K, sp⟩ w) := by
  cases n with
  | ndisp conf pos pv pe b =>
      simp only [keywordsNode]
      exact kwBlock_scopeFree b σ1 σ2 ch1 ch2 K sp w
        (by simpa [kwScopeFree] using h)
  | nif entries pe =>
      simp only [keywordsNode]
      exact kwIf_scopeFree pe σ1 σ2 ch1 ch2 K sp w
        (by simpa [kwScopeFree] using h)
  | nfor v e ev ee b => simp [keywordsNode, KwAgree]
  | npython code => simp [keywordsNode, KwAgree]
  | npass => simp [keywordsNode, KwAgree]
  | ndefault v e ce => simp [keywordsNode, KwAgree]
  | nblock b =>
      simp only [keywordsNode]
      exact kwBlock_scopeFree b σ1 σ2 ch1 ch2 K sp w
        (by simpa [kwScopeFree] using h)

/-- `SLBlock.keywords` on a scope-free block yields agreeing outcomes:
the constant merge and the dynamic merge (evaluated against the global
store, src line 183) rewrite `keywords` only, and the child recursion is
scope-free by hypothesis. -/
theorem kwBlock_scopeFree (b : Block) (σ1 σ2 : Scope) (ch1 ch2 : List Elem)
    (K : Scope) (sp : String) (w : World) (h : kwScopeFreeB b = true) :
    KwAgree σ1 ch1 σ2 ch2 (keywordsBlock b ⟨σ1, ch1, K, sp⟩ w)
      (keywordsBlock b ⟨σ2, ch2, K, sp⟩ w) := by
  cases b with
  | mk kw ch kv ke =>
      have hch : kwScopeFreeChildren ch = true := by
        simpa [kwScopeFreeB] using h
      have main : ∀ K1 : Scope,
          KwAgree σ1 ch1 σ2 ch2
            ((applyStyleGroup ⟨σ1, ch1, K1, sp⟩).bind
              (fun c => keywordsChildren ch c w))
            ((applyStyleGroup ⟨σ2, ch2, K1, sp⟩).bind
              (fun c => keywordsChildren ch c w)) := by
        intro K1
        have hag := applyStyleGroup_agree σ1 σ2 ch1 ch2 K1 sp
        cases h1 : applyStyleGroup ⟨σ1, ch1, K1, sp⟩ with
        | none =>
            cases h2 : applyStyleGroup ⟨σ2, ch2, K1, sp⟩ with
            | none => simp [h1, h2, KwAgree]
            | some c2 => rw [h1, h2] at hag; simp [KwAgree] at hag
        | some c1 =>
            cases h2 : applyStyleGroup ⟨σ2, ch2, K1, sp⟩ with
            | none => rw [h1, h2] at hag; simp [KwAgree] at hag
            | some c2 =>
                rw [h1, h2] at hag
                obtain ⟨c1s, c1c, c1k, c1p⟩ := c1
                obtain ⟨c2s, c2c, c2k, c2p⟩ := c2
                simp only [KwAgree] at hag
                obtain ⟨a1, a2, a3, a4, a5, a6⟩ := hag
                simp only [h1, h2, Option.some_bind, a1, a2, a3, a4,
                  ← a5, ← a6]
                exact kwChildren_scopeFree ch σ1 σ2 ch1 ch2 c1k c1p w hch
      cases kv with
      | none =>
          cases ke with
          | none =>
              rw [keywordsBlock_nn, keywordsBlock_nn]
              exact main K
          | some exprs =>
              rw [keywordsBlock_ns, keywordsBlock_ns]
              cases hd : evalDict exprs w.store with
              | none => exact trivial
              | some d => exact main (updateAll K d)
      | some vals =>
          cases ke with
          | none =>
              rw [keywordsBlock_sn, keywordsBlock_sn]
              exact main (updateAll K vals)
          | some exprs =>
              rw [keywordsBlock_ss, keywordsBlock_ss]
              cases hd : evalDict exprs w.store with
              | none => exact trivial
              | some d => exact main (updateAll (updateAll K vals) d)

/-- Child recursion of `SLBlock.keywords` preserves agreement. -/
theorem kwChildren_scopeFree (l : List Node) (σ1 σ2 : Scope)
    (ch1 ch2 : List Elem) (K : Scope) (sp : String) (w : World)
    (h : kwScopeFreeChildren l = true) :
    KwAgree σ1 ch1 σ2 ch2 (keywordsChildren l ⟨σ1, ch1, K, sp⟩ w)
      (keywordsChildren l ⟨σ2, ch2, K, sp⟩ w) := by
  cases l with
  | nil => simp [keywordsChildren, KwAgree]
  | cons n rest =>
      have hsplit : kwScopeFree n = true ∧
          kwScopeFreeChildren rest = true := by
        simpa [kwScopeFreeChildren, Bool.and_eq_true] using h
      have hag := kwNode_scopeFree n σ1 σ2 ch1 ch2 K sp w hsplit.1
      simp only [keywordsChildren]
      cases h1 : keywordsNode n ⟨σ1, ch1, K, sp⟩ w with
      | none =>
          cases h2 : keywordsNode n ⟨σ2, ch2, K, sp⟩ w with
          | none => simp [h1, h2, KwAgree]
          | some c2 => rw [h1, h2] at hag; simp [KwAgree] at hag
      | some c1 =>
          cases h2 : keywordsNode n ⟨σ2, ch2, K, sp⟩ w with
          | none => rw [h1, h2] at hag; simp [KwAgree] at hag
          | some c2 =>
              rw [h1, h2] at hag
              obtain ⟨c1s, c1c, c1k, c1p⟩ := c1
              obtain ⟨c2s, c2c, c2k, c2p⟩ := c2
              simp only [KwAgree] at hag
              obtain ⟨a1, a2, a3, a4, a5, a6⟩ := hag
              simp only [h1, h2, Option.some_bind, a1, a2, a3, a4,
                ← a5, ← a6]
              exact kwChildren_scopeFree rest σ1 σ2 ch1 ch2 c1k c1p w
                hsplit.2

/-- The branch scan of `SLIf.keywords` under absent-or-constant
conditions chooses the same branch for every scope (the condition
evaluation of src line 390 is the only scope read of the traversal). -/
theorem kwIf_scopeFree (l : List (Option Expr × Block)) (σ1 σ2 : Scope)
    (ch1 ch2 : List Elem) (K : Scope) (sp : String) (w : World)
    (h : kwScopeFreeEntries l = true) :
    KwAgree σ1 ch1 σ2 ch2 (kwIfEntries l ⟨σ1, ch1, K, sp⟩ w)
      (kwIfEntries l ⟨σ2, ch2, K, sp⟩ w) := by
  cases l with
  | nil => simp [kwIfEntries, KwAgree]
  | cons p rest =>
      obtain ⟨c, b⟩ := p
      simp only [kwScopeFreeEntries, Bool.and_eq_true] at h
      obtain ⟨⟨hcnd, hb⟩, hrest⟩ := h
      cases c with
      | none =>
          simp only [kwIfEntries]
          exact kwBlock_scopeFree b σ1 σ2 ch1 ch2 K sp w hb
      | some e =>
          cases e with
          | var x => simp [is_constant] at hcnd
          | lit v =>
              simp only [kwIfEntries, evalE, Option.bind_eq_bind,
                Option.some_bind]
              cases ht : truthy v with
              | true => exact kwBlock_scopeFree b σ1 σ2 ch1 ch2 K sp w hb
              | false => exact kwIf_scopeFree rest σ1 σ2 ch1 ch2 K sp w hrest

end

/-- C2 (amended): for a Displayable node whose positional and keyword
expressions are all classified constant at `prepare` time, which is
configured with neither `scope` nor `pass_context` (the two
configurations that feed execution-time context data into the
construction call), and whose `keywords` traversal is scope-free — no If
entry reachable through the keywords recursion over the node's children
carries a dynamically-classified condition, the one place `keywords`
reads the scope (src line 390) — any two `execute` calls against
contexts that agree on the style prefix, however much their scope
mappings differ, hand the construction function identical positional and
keyword arguments: the constants are evaluated once during `prepare` and
never re-read from the scope during `execute`. -/
theorem c2_amended (conf : DispConf) (pos : List Expr)
    (kw : List (String × Expr)) (ch : List Node) (ctx1 ctx2 : Ctx)
    (w : World)
    (hsf : conf.scopeFlag = false) (hpc : conf.pass_context = false)
    (hsp : ctx1.style_pfx = ctx2.style_pfx)
    (hpos : ∀ e ∈ pos, is_constant e = true)
    (hkw : ∀ p ∈ kw, is_constant p.2 = true)
    (hch : kwScopeFreeChildren ch = true) :
    (dispConstructArgs conf (pvOf pos) (peOf pos)
        (Block.mk kw ch (kvOf kw) (keOf kw)) ctx1 w).map
      (fun da => (da.positional, da.keywords)) =
    (dispConstructArgs conf (pvOf pos) (peOf pos)
        (Block.mk kw ch (kvOf kw) (keOf kw)) ctx2 w).map
      (fun da => (da.positional, da.keywords)) := by
  have hpe : peOf pos = Option.none := by
    have hany : pos.any (fun a => !is_constant a) = false := by
      cases hh : pos.any (fun a => !is_constant a)
      · rfl
      · obtain ⟨e, he, hc⟩ := List.any_eq_true.mp hh
        rw [hpos e he] at hc
        simp at hc
    simp [peOf, hany]
  have hke : keOf kw = Option.none := by
    have hfil : kw.filter (fun p => !is_constant p.2) = [] := by
      rw [List.filter_eq_nil_iff]
      intro p hp
      simp [hkw p hp]
    simp [keOf, hfil]
  rw [hpe, hke]
  have hb : kwScopeFreeB (Block.mk kw ch (kvOf kw) Option.none) = true := by
    simpa [kwScopeFreeB] using hch
  have hag := kwBlock_scopeFree (Block.mk kw ch (kvOf kw) Option.none)
    ctx1.scope ctx2.scope [] [] [] ctx2.style_pfx w hb
  simp only [dispConstructArgs, resolvePositional_pe_none,
    Option.bind_eq_bind, Option.some_bind]
  rw [hsp]
  cases h1 : keywordsBlock (Block.mk kw ch (kvOf kw) Option.none)
      ⟨ctx1.scope, [], [], ctx2.style_pfx⟩ w with
  | none =>
      cases h2 : keywordsBlock (Block.mk kw ch (kvOf kw) Option.none)
          ⟨ctx2.scope, [], [], ctx2.style_pfx⟩ w with
      | none => simp [h1, h2]
      | some c2 => rw [h1, h2] at hag; simp [KwAgree] at hag
  | some c1 =>
      cases h2 : keywordsBlock (Block.mk kw ch (kvOf kw) Option.none)
          ⟨ctx2.scope, [], [], ctx2.style_pfx⟩ w with
      | none => rw [h1, h2] at hag; simp [KwAgree] at hag
      | some c2 =>
          rw [h1, h2] at hag
          obtain ⟨c1s, c1c, c1k, c1p⟩ := c1
          obtain ⟨c2s, c2c, c2k, c2p⟩ := c2
          simp only [KwAgree] at hag
          obtain ⟨a1, a2, a3, a4, a5, a6⟩ := hag
          simp [h1, h2, hpc, hsf, a5, a6, apply_ite Ctx.keywords]

/-- Witness for `c2_amended` at the C2 scenario with the `scope`
configuration turned off and a (scope-free) Pass child. -/
theorem c2_amended_witness :
    ((⟨3, false, false, Option.none, false, false⟩ : DispConf).scopeFlag
        = false) ∧
    ((⟨3, false, false, Option.none, false, false⟩ : DispConf).pass_context
        = false) ∧
    (⟨[("u", Val.int 1)], [], [], ""⟩ : Ctx).style_pfx =
      (⟨[("u", Val.int 2)], [], [], ""⟩ : Ctx).style_pfx ∧
    (∀ e ∈ [Expr.lit (Val.int 7)], is_constant e = true) ∧
    (∀ p ∈ [("c", Expr.lit (Val.str "red"))], is_constant p.2 = true) ∧
    kwScopeFreeChildren [Node.npass] = true ∧
    (dispConstructArgs ⟨3, false, false, Option.none, false, false⟩
        (pvOf [Expr.lit (Val.int 7)]) (peOf [Expr.lit (Val.int 7)])
        (Block.mk [("c", Expr.lit (Val.str "red"))] [Node.npass]
          (kvOf [("c", Expr.lit (Val.str "red"))])
          (keOf [("c", Expr.lit (Val.str "red"))]))
        ⟨[("u", Val.int 1)], [], [], ""⟩ World.empty).map
      (fun da => (da.positional, da.keywords)) =
    (dispConstructArgs ⟨3, false, false, Option.none, false, false⟩
        (pvOf [Expr.lit (Val.int 7)]) (peOf [Expr.lit (Val.int 7)])
        (Block.mk [("c", Expr.lit (Val.str "red"))] [Node.npass]
          (kvOf [("c", Expr.lit (Val.str "red"))])
          (keOf [("c", Expr.lit (Val.str "red"))]))
        ⟨[("u", Val.int 2)], [], [], ""⟩ World.empty).map
      (fun da => (da.positional, da.keywords)) := by
  refine ⟨rfl, rfl, rfl, ?_, ?_, ?_, ?_⟩
  · intro e he
    simp only [List.mem_singleton] at he
    subst he
    rfl
  · intro p hp
    simp only [List.mem_singleton] at hp
    subst hp
    rfl
  · simp [kwScopeFreeChildren, kwScopeFree]
  · exact c2_amended _ _ _ _ _ _ _ rfl rfl rfl
      (by intro e he
          simp only [List.mem_singleton] at he
          subst he
          rfl)
      (by intro p hp
          simp only [List.mem_singleton] at hp
          subst hp
          rfl)
      (by simp [kwScopeFreeChildren, kwScopeFree])

-- ======================================================================
-- C9 — prepare is idempotent.
-- ======================================================================

mutual

theorem prepareNode_idem (n : Node) :
    prepareNode (prepareNode n) = prepareNode n := by
  cases n with
  | ndisp conf pos pv pe b =>
      simp only [prepareNode]
      rw [prepareBlock_idem]
  | nif entries pe => simp only [prepareNode]
  | nfor v e ev ee b =>
      by_cases h : is_constant e = true <;>
        simp only [prepareNode, h, if_true, if_false, Bool.false_eq_true] <;>
        rw [prepareBlock_idem]
  | npython code => simp only [prepareNode]
  | npass => simp only [prepareNode]
  | ndefault v e ce => simp only [prepareNode]
  | nblock b =>
      simp only [prepareNode]
      rw [prepareBlock_idem]

theorem prepareBlock_idem (b : Block) :
    prepareBlock (prepareBlock b) = prepareBlock b := by
  cases b with
  | mk kw ch kv ke =>
      simp only [prepareBlock]
      rw [prepareChildren_idem]

theorem prepareChildren_idem (l : List Node) :
    prepareChildren (prepareChildren l) = prepareChildren l := by
  cases l with
  | nil => simp only [prepareChildren]
  | cons n rest =>
      simp only [prepareChildren]
      rw [prepareNode_idem, prepareChildren_idem]

end

/-- C9: for every node tree, preparing twice and then executing (or
querying keywords) is identical to preparing once and then executing:
`prepare` recomputes all compiled state from the declared expressions
only, so a second `prepare` — as performed again after init-level code
runs (src lines 90-95) — changes nothing. -/
theorem c9_prepare_idempotent (n : Node) (ctx : Ctx) (w : World) :
    prepareNode (prepareNode n) = prepareNode n ∧
    executeNode (prepareNode (prepareNode n)) ctx w =
      executeNode (prepareNode n) ctx w ∧
    keywordsNode (prepareNode (prepareNode n)) ctx w =
      keywordsNode (prepareNode n) ctx w := by
  refine ⟨prepareNode_idem n, ?_, ?_⟩ <;> rw [prepareNode_idem]
